import Mathlib

/-
Verification of the boros transaction store (src/storage/sqlite.rs).

The store keeps two SQLite tables (spec §6; the migration files are not part
of the sources, so the schema constraints are modelled from the spec):
  - `tx`            : id (TEXT PRIMARY KEY), raw, status (TEXT), priority,
                      created_at, updated_at
  - `tx_dependence` : (dependent_id, required_id), both FOREIGN KEYs into
                      tx.id, composite uniqueness on the pair

Operations, from src/storage/sqlite.rs:
  - `SqliteTransaction::create` (lines 73-123): inside one SQL transaction,
    for each record in the batch insert its `tx` row, then one
    `tx_dependence` row per listed dependency; any constraint violation makes
    the `?` operator return early, so the transaction is dropped without
    commit and rolls back.
  - `SqliteTransaction::next` (lines 125-150): SELECT ... FROM tx WHERE
    tx.status = $1 ORDER BY priority, created_at ASC LIMIT 1, via
    fetch_optional (zero rows become Ok(None)).  The query does not join
    tx_dependence and has no further ORDER BY key; among rows tied on
    (priority, created_at) SQLite's result order is the table scan (rowid,
    i.e. insertion) order, which is how ties are modelled here.
  - `SqliteTransaction::update` (lines 152-176): UPDATE tx SET raw, status,
    updated_at = Utc::now() WHERE id = $4; the affected row count is never
    inspected, so a non-matching id still yields Ok(()).

`Transaction` and `TransactionStatus` are declared in the storage module,
whose current sources do not carry their definitions; their shape is taken
from the field accesses in sqlite.rs together with spec §3.  Status is
persisted as text via to_string/parse; the encoding is injective on the
enum, so row status is modelled as the enum itself.  `priority` is stored in
the `priority` u32 column (spec §3: unsigned integer, smaller = higher
precedence) and is modelled as that natural number.  Timestamps are modelled
as integers, payloads as byte lists.
-/

/-- Modelled from the spec: lifecycle states of §3 (the enum's definition is
not under the given sources; sqlite.rs only converts it to and from text). -/
inductive TransactionStatus where
  | pending
  | validated
  | propagated
  | failed
deriving DecidableEq

/-- The in-memory record handed to `create`/`update` (struct `Transaction`):
fields are exactly those read by sqlite.rs. -/
structure Transaction where
  id : String
  raw : List Nat
  status : TransactionStatus
  priority : Nat
  dependencies : Option (List String)
  created_at : Int
  updated_at : Int
deriving DecidableEq

/-- One row of the `tx` table (no dependency column; edges live in
`tx_dependence`). -/
structure TxRow where
  id : String
  raw : List Nat
  status : TransactionStatus
  priority : Nat
  created_at : Int
  updated_at : Int
deriving DecidableEq

/-- The durable state: `tx` rows in rowid (insertion) order, and the
`tx_dependence` rows `(dependent_id, required_id)`. -/
structure TxStore where
  rows : List TxRow
  deps : List (String × String)
deriving DecidableEq

/-- The set of primary keys present in `tx`. -/
def TxStore.ids (s : TxStore) : List String := s.rows.map TxRow.id

/-- Errors surfaced by the store (spec §7 taxonomy; `notFound` is listed
there for `update`, the code never produces it). -/
inductive StorageErr where
  | duplicateId
  | dependencyNotFound
  | duplicateEdge
  | notFound
deriving DecidableEq

/-- The `tx` row written for a record by `create` (sqlite.rs lines 80-100). -/
def rowOf (tx : Transaction) : TxRow :=
  ⟨tx.id, tx.raw, tx.status, tx.priority, tx.created_at, tx.updated_at⟩

/-- `FromRow for Transaction` (sqlite.rs lines 42-62): a fetched row becomes
a record with `dependencies: None`. -/
def rowToTx (r : TxRow) : Transaction :=
  ⟨r.id, r.raw, r.status, r.priority, none, r.created_at, r.updated_at⟩

/-- INSERT INTO tx (sqlite.rs lines 80-100).  Modelled from the spec: the
PRIMARY KEY on `id` (spec §6) rejects an id already present. -/
def insertRow (s : TxStore) (tx : Transaction) : Except StorageErr TxStore :=
  if tx.id ∈ s.ids then .error .duplicateId
  else .ok { s with rows := s.rows ++ [rowOf tx] }

/-- INSERT INTO tx_dependence (sqlite.rs lines 104-116).  Modelled from the
spec: both columns are FOREIGN KEYs into tx.id and the pair is unique
(spec §6); each constraint rejects the row when violated. -/
def insertEdge (s : TxStore) (dep req : String) : Except StorageErr TxStore :=
  if dep ∉ s.ids then .error .dependencyNotFound
  else if req ∉ s.ids then .error .dependencyNotFound
  else if (dep, req) ∈ s.deps then .error .duplicateEdge
  else .ok { s with deps := s.deps ++ [(dep, req)] }

/-- The inner `for required_id in dependencies` loop of `create`
(sqlite.rs lines 102-118); the first failing insert returns early. -/
def insertEdges (s : TxStore) (dep : String) : List String → Except StorageErr TxStore
  | [] => .ok s
  | req :: rest =>
    match insertEdge s dep req with
    | .error e => .error e
    | .ok s1 => insertEdges s1 dep rest

/-- The `for tx in txs` loop of `create` (sqlite.rs lines 76-119): insert the
record's row, then its dependency edges, then continue with the rest; the
first failure aborts the loop. -/
def createLoop : TxStore → List Transaction → Except StorageErr TxStore
  | s, [] => .ok s
  | s, tx :: rest =>
    match insertRow s tx with
    | .error e => .error e
    | .ok s1 =>
      match insertEdges s1 tx.id (tx.dependencies.getD []) with
      | .error e => .error e
      | .ok s2 => createLoop s2 rest

/-- `SqliteTransaction::create` (sqlite.rs lines 73-123): on success the SQL
transaction commits the final state. -/
def create (s : TxStore) (txs : List Transaction) : Except StorageErr TxStore :=
  createLoop s txs

/-- The observable outcome of `create`: the durable state afterwards plus the
returned error, if any.  A failure makes `?` drop the uncommitted SQL
transaction, so the state rolls back to the state before the call. -/
def createRun (s : TxStore) (txs : List Transaction) : TxStore × Option StorageErr :=
  match createLoop s txs with
  | .ok s1 => (s1, none)
  | .error e => (s, some e)

/-- ORDER BY priority, created_at ASC: row `a` sorts strictly before row `b`. -/
def keyLtb (a b : TxRow) : Bool :=
  decide (a.priority < b.priority) ||
    (decide (a.priority = b.priority) && decide (a.created_at < b.created_at))

/-- LIMIT 1 over the ordered rows: the first row of minimal
(priority, created_at); ties keep the earlier (rowid-order) row. -/
def selectMin : List TxRow → Option TxRow
  | [] => none
  | r :: rs =>
    match selectMin rs with
    | none => some r
    | some m => if keyLtb m r then some m else some r

/-- `SqliteTransaction::next` (sqlite.rs lines 125-150): filter by status,
order by (priority, created_at), fetch at most one row. -/
def next (s : TxStore) (st : TransactionStatus) : Option Transaction :=
  (selectMin (s.rows.filter fun r => decide (r.status = st))).map rowToTx

/-- The full return value of `next`: `fetch_optional` maps an empty result to
`Ok(None)`, so the function returns `Ok` whenever the query itself runs. -/
def nextE (s : TxStore) (st : TransactionStatus) : Except StorageErr (Option Transaction) :=
  .ok (next s st)

/-- The SET clause of `update` applied to one row (sqlite.rs lines 156-171):
only raw, status and updated_at change, and only on the matching id. -/
def updateRow (tx : Transaction) (now : Int) (r : TxRow) : TxRow :=
  if r.id = tx.id then { r with raw := tx.raw, status := tx.status, updated_at := now }
  else r

/-- `SqliteTransaction::update` (sqlite.rs lines 152-176): UPDATE tx SET
raw, status, updated_at = now WHERE id = tx.id.  The row count is not
checked, so the call succeeds even when no row matches. -/
def update (s : TxStore) (tx : Transaction) (now : Int) : Except StorageErr TxStore :=
  .ok { s with rows := s.rows.map (updateRow tx now) }

/-- Modelled from the spec: "dependency satisfied" (spec §3, §9).  The spec
leaves open whether satisfaction means `validated` or `propagated`; under
every candidate reading that is a status condition, a required transaction
still `pending` (or `failed`) is not satisfied, which is what this test
captures. -/
def satByStatus (s : TxStore) (req : String) : Bool :=
  s.rows.any fun r =>
    decide (r.id = req) &&
      (decide (r.status = TransactionStatus.validated) ||
        decide (r.status = TransactionStatus.propagated))

/-- `true` exactly on `Except.error`. -/
def isErr : Except StorageErr TxStore → Bool
  | .error _ => true
  | .ok _ => false

/-- Maps over a list are the identity when the function fixes every element. -/
theorem list_map_fix {α : Type} (f : α → α) :
    ∀ l : List α, (∀ r ∈ l, f r = r) → l.map f = l
  | [], _ => rfl
  | r :: rest, h => by
    have hr : f r = r := h r (List.mem_cons_self r rest)
    have ht := list_map_fix f rest fun x hx => h x (List.mem_cons_of_mem r hx)
    simp [hr, ht]

/-- Claim C1 (amended): `next` never consults the dependency table at all:
its result is the same for any contents of `tx_dependence`, so selection
disregards whether dependencies are met. -/
theorem next_ignores_dependency_table (rows : List TxRow)
    (d1 d2 : List (String × String)) (st : TransactionStatus) :
    next ⟨rows, d1⟩ st = next ⟨rows, d2⟩ st := rfl

/-- Claim C1 (counterexample): record "a" (priority 0) depends on "b"
(priority 5); both are Pending, so "a"'s dependency is unsatisfied, the
store is reachable by a single successful `create`, and yet `next` returns
"a". -/
theorem next_returns_unmet_dependency_cex :
    createRun ⟨[], []⟩
        [⟨"b", [], .pending, 5, none, 0, 0⟩, ⟨"a", [], .pending, 0, some ["b"], 0, 0⟩] =
      (⟨[⟨"b", [], .pending, 5, 0, 0⟩, ⟨"a", [], .pending, 0, 0, 0⟩], [("a", "b")]⟩, none) ∧
    satByStatus ⟨[⟨"b", [], .pending, 5, 0, 0⟩, ⟨"a", [], .pending, 0, 0, 0⟩],
        [("a", "b")]⟩ "b" = false ∧
    next ⟨[⟨"b", [], .pending, 5, 0, 0⟩, ⟨"a", [], .pending, 0, 0, 0⟩],
        [("a", "b")]⟩ .pending = some ⟨"a", [], .pending, 0, none, 0, 0⟩ := by
  decide

/-- Claim C4 (counterexample): updating an id that is not in the store
returns success with the store unchanged instead of a NotFound error. -/
theorem update_missing_id_cex :
    update ⟨[⟨"w", [], .pending, 1, 0, 0⟩], []⟩ ⟨"z", [], .validated, 1, none, 0, 9⟩ 7 =
      .ok ⟨[⟨"w", [], .pending, 1, 0, 0⟩], []⟩ ∧
    "z" ∉ (⟨[⟨"w", [], .pending, 1, 0, 0⟩], []⟩ : TxStore).ids := by
  exact ⟨rfl, by decide⟩

/-- Claim C4 (amended): `update` with an id absent from the store does not
fail: the UPDATE matches zero rows, so the call returns success and leaves
the store unchanged. -/
theorem update_missing_id_noop (s : TxStore) (tx : Transaction) (now : Int)
    (h : tx.id ∉ s.ids) : update s tx now = .ok s := by
  have hrow : ∀ r ∈ s.rows, updateRow tx now r = r := by
    intro r hr
    have : r.id ≠ tx.id := by
      intro he
      exact h (he ▸ List.mem_map_of_mem TxRow.id hr)
    simp [updateRow, this]
  simp [update, list_map_fix _ s.rows hrow]

/-- Claim C4 (witness): concrete instance of the amended claim. -/
theorem update_missing_id_noop_wit :
    ("z" ∉ (⟨[⟨"w", [], .pending, 1, 0, 0⟩], []⟩ : TxStore).ids) ∧
    update ⟨[⟨"w", [], .pending, 1, 0, 0⟩], []⟩ ⟨"z", [], .validated, 2, none, 0, 9⟩ 7 =
      .ok ⟨[⟨"w", [], .pending, 1, 0, 0⟩], []⟩ :=
  ⟨by decide,
    update_missing_id_noop ⟨[⟨"w", [], .pending, 1, 0, 0⟩], []⟩
      ⟨"z", [], .validated, 2, none, 0, 9⟩ 7 (by decide)⟩

/-- Claim C7 (counterexample): two Pending rows tied on priority and
created_at; the row with the larger id "b" was inserted first and is
returned, so the tie is not broken by ascending id. -/
theorem next_tie_not_by_id_cex :
    next ⟨[⟨"b", [], .pending, 1, 0, 0⟩, ⟨"a", [], .pending, 1, 0, 0⟩], []⟩ .pending =
      some ⟨"b", [], .pending, 1, none, 0, 0⟩ ∧ ("a" : String) < "b" := by
  constructor
  · decide
  · simp [String.lt_iff]
    decide

/-- Claim C7 (amended): the query orders only by priority then created_at;
for two eligible rows tied on both, `next` returns the first-inserted row,
whatever the two ids are — id is not a tie-breaker. -/
theorem next_tie_insertion_order (A B : TxRow) (d : List (String × String))
    (st : TransactionStatus) (hB : B.status = st) (hA : A.status = st)
    (hp : A.priority = B.priority) (hc : A.created_at = B.created_at) :
    next ⟨[B, A], d⟩ st = some (rowToTx B) := by
  have hAB : keyLtb A B = false := by simp [keyLtb, hp, hc]
  simp [next, List.filter, hA, hB, selectMin, hAB]

/-- Claim C7 (witness): concrete instance of the amended claim. -/
theorem next_tie_insertion_order_wit :
    next ⟨[⟨"d", [], .pending, 2, 3, 3⟩, ⟨"c", [], .pending, 2, 3, 3⟩], []⟩ .pending =
      some (rowToTx ⟨"d", [], .pending, 2, 3, 3⟩) :=
  next_tie_insertion_order ⟨"c", [], .pending, 2, 3, 3⟩ ⟨"d", [], .pending, 2, 3, 3⟩
    [] .pending rfl rfl rfl rfl

/-- Claim C9: when no stored row has the requested status, `next` returns
`Ok(None)`: the empty result is a success value, not an error. -/
theorem next_no_match_ok_none (s : TxStore) (st : TransactionStatus)
    (h : ∀ r ∈ s.rows, r.status ≠ st) : nextE s st = .ok none := by
  have hf : s.rows.filter (fun r => decide (r.status = st)) = [] := by
    rw [List.filter_eq_nil_iff]
    intro r hr
    simp [h r hr]
  simp [nextE, next, hf, selectMin]

/-- Claim C9 (witness): a store whose only row is Validated yields
`Ok(None)` for a Pending query. -/
theorem next_no_match_ok_none_wit :
    nextE ⟨[⟨"w", [], .validated, 1, 0, 0⟩], []⟩ .pending = .ok none :=
  next_no_match_ok_none ⟨[⟨"w", [], .validated, 1, 0, 0⟩], []⟩ .pending (by decide)

/-- The ordering key is irreflexive. -/
theorem keyLtb_irrefl (r : TxRow) : keyLtb r r = false := by
  simp [keyLtb]

/-- The ordering key is asymmetric. -/
theorem keyLtb_asymm {a b : TxRow} (h : keyLtb a b = true) : keyLtb b a = false := by
  simp [keyLtb] at h ⊢
  omega

/-- Non-strictly-smaller is transitive for the ordering key. -/
theorem keyLtb_false_trans {a b c : TxRow} (h1 : keyLtb a b = false)
    (h2 : keyLtb b c = false) : keyLtb a c = false := by
  simp [keyLtb] at h1 h2 ⊢
  omega

/-- `selectMin` yields `none` only on the empty row list. -/
theorem selectMin_eq_none : ∀ {l : List TxRow}, selectMin l = none → l = []
  | [], _ => rfl
  | r :: rs, h => by
    simp only [selectMin] at h
    cases hrs : selectMin rs <;> simp [hrs] at h
    split at h <;> simp at h

/-- `selectMin` returns an element of its input. -/
theorem selectMin_mem : ∀ {l : List TxRow} {m : TxRow}, selectMin l = some m → m ∈ l
  | [], m, h => by simp [selectMin] at h
  | r :: rs, m, h => by
    cases hrs : selectMin rs with
    | none =>
      simp only [selectMin, hrs, Option.some.injEq] at h
      subst h
      exact List.mem_cons_self r rs
    | some m1 =>
      simp only [selectMin, hrs] at h
      by_cases hk : keyLtb m1 r = true
      · rw [if_pos hk] at h
        cases h
        exact List.mem_cons_of_mem r (selectMin_mem hrs)
      · rw [if_neg hk] at h
        cases h
        exact List.mem_cons_self r rs

/-- No row of the input sorts strictly before the row chosen by
`selectMin`: the chosen row is minimal for (priority, created_at). -/
theorem selectMin_minimal : ∀ {l : List TxRow} {m : TxRow}, selectMin l = some m →
    ∀ r ∈ l, keyLtb r m = false
  | [], m, h => by simp [selectMin] at h
  | r :: rs, m, h => by
    cases hrs : selectMin rs with
    | none =>
      simp only [selectMin, hrs, Option.some.injEq] at h
      subst h
      have hnil : rs = [] := selectMin_eq_none hrs
      subst hnil
      intro x hx
      rw [List.mem_singleton] at hx
      subst hx
      exact keyLtb_irrefl x
    | some m1 =>
      simp only [selectMin, hrs] at h
      by_cases hk : keyLtb m1 r = true
      · rw [if_pos hk] at h
        cases h
        intro x hx
        rcases List.mem_cons.mp hx with hxr | hxrs
        · subst hxr
          exact keyLtb_asymm hk
        · exact selectMin_minimal hrs x hxrs
      · rw [if_neg hk] at h
        cases h
        intro x hx
        rcases List.mem_cons.mp hx with hxr | hxrs
        · subst hxr
          exact keyLtb_irrefl x
        · exact keyLtb_false_trans (selectMin_minimal hrs x hxrs)
            (Bool.not_eq_true _ ▸ hk)

/-- Claim C3: with rows A and B both carrying the queried status, `next`
returns some record, and it never returns B while A has a strictly smaller
priority, nor while the priorities are equal and A has a strictly earlier
created_at — so A is served before B. -/
theorem next_priority_then_age (s : TxStore) (st : TransactionStatus) (A B : TxRow)
    (hA : A ∈ s.rows) (_hB : B ∈ s.rows) (hAs : A.status = st) (_hBs : B.status = st) :
    (∃ t, next s st = some t) ∧
    (A.priority < B.priority → ∀ t, next s st = some t → t ≠ rowToTx B) ∧
    (A.priority = B.priority → A.created_at < B.created_at →
      ∀ t, next s st = some t → t ≠ rowToTx B) := by
  have hAl : A ∈ s.rows.filter fun r => decide (r.status = st) :=
    List.mem_filter.mpr ⟨hA, by simp [hAs]⟩
  obtain ⟨m, hm⟩ : ∃ m, selectMin (s.rows.filter fun r => decide (r.status = st)) = some m := by
    cases hsel : selectMin (s.rows.filter fun r => decide (r.status = st)) with
    | none => exact absurd (selectMin_eq_none hsel ▸ hAl) (List.not_mem_nil A)
    | some m => exact ⟨m, rfl⟩
  have hnext : next s st = some (rowToTx m) := by simp [next, hm]
  have hmin : keyLtb A m = false := selectMin_minimal hm A hAl
  have hkey : ¬ (A.priority < m.priority ∨
      (A.priority = m.priority ∧ A.created_at < m.created_at)) := by
    simpa [keyLtb] using hmin
  refine ⟨⟨rowToTx m, hnext⟩, ?_, ?_⟩
  · intro hp t ht heq
    rw [hnext] at ht
    cases ht
    have hpm : m.priority = B.priority := congrArg Transaction.priority heq
    omega
  · intro hp hc t ht heq
    rw [hnext] at ht
    cases ht
    have hpm : m.priority = B.priority := congrArg Transaction.priority heq
    have hcm : m.created_at = B.created_at := congrArg Transaction.created_at heq
    omega

/-- Claim C3 (witness): rows "q" (priority 1) and "p" (priority 3) are both
Pending; `next` returns some record and it is not "p". -/
theorem next_priority_then_age_wit :
    (∃ t, next ⟨[⟨"p", [], .pending, 3, 0, 0⟩, ⟨"q", [], .pending, 1, 0, 0⟩], []⟩
        .pending = some t) ∧
    ((1 : Nat) < 3 → ∀ t,
      next ⟨[⟨"p", [], .pending, 3, 0, 0⟩, ⟨"q", [], .pending, 1, 0, 0⟩], []⟩ .pending =
        some t → t ≠ rowToTx ⟨"p", [], .pending, 3, 0, 0⟩) ∧
    ((1 : Nat) = 3 → (0 : Int) < 0 → ∀ t,
      next ⟨[⟨"p", [], .pending, 3, 0, 0⟩, ⟨"q", [], .pending, 1, 0, 0⟩], []⟩ .pending =
        some t → t ≠ rowToTx ⟨"p", [], .pending, 3, 0, 0⟩) :=
  next_priority_then_age ⟨[⟨"p", [], .pending, 3, 0, 0⟩, ⟨"q", [], .pending, 1, 0, 0⟩], []⟩
    .pending ⟨"q", [], .pending, 1, 0, 0⟩ ⟨"p", [], .pending, 3, 0, 0⟩
    (by decide) (by decide) rfl rfl

/-- Inversion of a successful `tx` row insert: the id was fresh and the row
was appended. -/
theorem insertRow_ok {s : TxStore} {tx : Transaction} {s1 : TxStore}
    (h : insertRow s tx = .ok s1) :
    tx.id ∉ s.ids ∧ s1 = { s with rows := s.rows ++ [rowOf tx] } := by
  by_cases hm : tx.id ∈ s.ids
  · simp [insertRow, hm] at h
  · simp only [insertRow, if_neg hm, Except.ok.injEq] at h
    exact ⟨hm, h.symm⟩

/-- Inversion of a successful edge insert: both endpoints existed, the pair
was new, and it was appended to `tx_dependence`. -/
theorem insertEdge_ok {s : TxStore} {dep req : String} {s1 : TxStore}
    (h : insertEdge s dep req = .ok s1) :
    dep ∈ s.ids ∧ req ∈ s.ids ∧ (dep, req) ∉ s.deps ∧
      s1 = { s with deps := s.deps ++ [(dep, req)] } := by
  by_cases h1 : dep ∈ s.ids
  case neg => simp [insertEdge, h1] at h
  by_cases h2 : req ∈ s.ids
  case neg => simp [insertEdge, h1, h2] at h
  by_cases h3 : (dep, req) ∈ s.deps
  case pos => simp [insertEdge, h1, h2, h3] at h
  simp only [insertEdge, h1, h2, h3, not_true_eq_false, not_false_eq_true, if_true,
    if_false, ite_false, ite_true, Except.ok.injEq] at h
  exact ⟨h1, h2, h3, h.symm⟩

/-- A successful run of the edge loop leaves `tx` untouched and appends one
edge per listed dependency, in order. -/
theorem insertEdges_ok_state : ∀ {l : List String} {s : TxStore} {dep : String} {s1 : TxStore},
    insertEdges s dep l = .ok s1 →
    s1.rows = s.rows ∧ s1.deps = s.deps ++ l.map (fun d => (dep, d))
  | [], s, dep, s1, h => by
    simp only [insertEdges, Except.ok.injEq] at h
    subst h
    simp
  | req :: rest, s, dep, s1, h => by
    simp only [insertEdges] at h
    cases he : insertEdge s dep req with
    | error e => rw [he] at h; simp at h
    | ok s2 =>
      rw [he] at h
      obtain ⟨hrows, hdeps⟩ := insertEdges_ok_state h
      obtain ⟨-, -, -, hs2⟩ := insertEdge_ok he
      subst hs2
      constructor
      · simpa using hrows
      · simpa [List.append_assoc] using hdeps

/-- If some listed dependency id is absent from `tx`, the edge loop fails. -/
theorem insertEdges_missing {d : String} : ∀ {l : List String} {s : TxStore} {dep : String},
    d ∈ l → d ∉ s.ids → isErr (insertEdges s dep l) = true
  | [], _, _, hd, _ => absurd hd (List.not_mem_nil d)
  | req :: rest, s, dep, hd, hids => by
    simp only [insertEdges]
    cases he : insertEdge s dep req with
    | error e => simp [isErr]
    | ok s2 =>
      obtain ⟨-, hreq, -, hs2⟩ := insertEdge_ok he
      rcases List.mem_cons.mp hd with hdr | hdr
      · subst hdr
        exact absurd hreq hids
      · subst hs2
        exact insertEdges_missing hdr hids

/-- A successful run of `create`'s loop appends exactly the batch's rows to
`tx`, in batch order. -/
theorem createLoop_ok_rows : ∀ {txs : List Transaction} {s s1 : TxStore},
    createLoop s txs = .ok s1 → s1.rows = s.rows ++ txs.map rowOf
  | [], s, s1, h => by
    simp only [createLoop, Except.ok.injEq] at h
    subst h
    simp
  | tx :: rest, s, s1, h => by
    cases hr : insertRow s tx with
    | error e => simp [createLoop, hr] at h
    | ok s2 =>
      cases hes : insertEdges s2 tx.id (tx.dependencies.getD []) with
      | error e => simp [createLoop, hr, hes] at h
      | ok s3 =>
        simp only [createLoop, hr, hes] at h
        have hrest := createLoop_ok_rows h
        obtain ⟨-, hs2⟩ := insertRow_ok hr
        obtain ⟨hrows3, -⟩ := insertEdges_ok_state hes
        subst hs2
        rw [hrest, hrows3]
        simp [List.append_assoc]

/-- Ids after a successful loop run: the old ids followed by the batch ids. -/
theorem createLoop_ok_ids {txs : List Transaction} {s s1 : TxStore}
    (h : createLoop s txs = .ok s1) :
    s1.ids = s.ids ++ txs.map Transaction.id := by
  have hr := createLoop_ok_rows h
  simp [TxStore.ids, hr, List.map_map, Function.comp, rowOf]

/-- The loop over an appended batch runs the first part, then the second on
the intermediate state. -/
theorem createLoop_append : ∀ (l1 l2 : List Transaction) (s : TxStore),
    createLoop s (l1 ++ l2) =
      match createLoop s l1 with
      | .error e => .error e
      | .ok s1 => createLoop s1 l2
  | [], l2, s => by simp [createLoop]
  | tx :: l1, l2, s => by
    cases hr : insertRow s tx with
    | error e => simp [List.cons_append, createLoop, hr]
    | ok s2 =>
      cases hes : insertEdges s2 tx.id (tx.dependencies.getD []) with
      | error e => simp [List.cons_append, createLoop, hr, hes]
      | ok s3 =>
        simp only [List.cons_append, createLoop, hr, hes]
        exact createLoop_append l1 l2 s3

/-- If a record's edge loop must fail after its row insert, processing that
record fails the whole batch loop. -/
theorem createLoop_cons_err {s : TxStore} {tx : Transaction} {post : List Transaction}
    (h : ∀ s2, insertRow s tx = .ok s2 →
      isErr (insertEdges s2 tx.id (tx.dependencies.getD [])) = true) :
    isErr (createLoop s (tx :: post)) = true := by
  cases hr : insertRow s tx with
  | error e => simp [createLoop, hr, isErr]
  | ok s2 =>
    have h2 := h s2 hr
    cases hes : insertEdges s2 tx.id (tx.dependencies.getD []) with
    | error e => simp [createLoop, hr, hes, isErr]
    | ok s3 => rw [hes] at h2; simp [isErr] at h2

/-- Shared failure lemma: if a batch record lists a dependency id that is in
the store neither before the call nor by the time that record's edges are
written (not an earlier batch id, not the record's own id), the loop
errors. -/
theorem createLoop_dep_absent_err {s : TxStore} {pre post : List Transaction}
    {tx : Transaction} {d : String} (hd : d ∈ tx.dependencies.getD [])
    (h1 : d ∉ s.ids) (h2 : d ∉ pre.map Transaction.id) (h3 : d ≠ tx.id) :
    isErr (createLoop s (pre ++ tx :: post)) = true := by
  rw [createLoop_append]
  cases hpre : createLoop s pre with
  | error e => simp [isErr]
  | ok s1 =>
    have hids1 : s1.ids = s.ids ++ pre.map Transaction.id := createLoop_ok_ids hpre
    show isErr (createLoop s1 (tx :: post)) = true
    apply createLoop_cons_err
    intro s2 hr
    obtain ⟨-, hs2⟩ := insertRow_ok hr
    have hids2 : s2.ids = s1.ids ++ [tx.id] := by
      subst hs2
      simp [TxStore.ids, rowOf]
    have hd2 : d ∉ s2.ids := by
      rw [hids2, hids1]
      intro hmem
      rcases List.mem_append.mp hmem with hmem | hmem
      · rcases List.mem_append.mp hmem with hmem | hmem
        · exact h1 hmem
        · exact h2 hmem
      · exact h3 (List.mem_singleton.mp hmem)
    exact insertEdges_missing hd hd2

/-- An erroring loop means `create` reports the error and the rollback
leaves the durable state exactly as before the call. -/
theorem createRun_of_isErr {s : TxStore} {txs : List Transaction}
    (h : isErr (createLoop s txs) = true) :
    (createRun s txs).1 = s ∧ (createRun s txs).2.isSome := by
  cases hc : createLoop s txs with
  | ok s1 => rw [hc] at h; simp [isErr] at h
  | error e => simp [createRun, hc]

/-- Claim C2: a batch holding a dependency edge whose required id is neither
in the store nor written earlier in the batch (nor the depending record's
own, already-written row) makes `create` fail, and the rollback leaves the
store completely unchanged: nothing from the batch is persisted. -/
theorem create_absent_dep_rejected (s : TxStore) (pre post : List Transaction)
    (tx : Transaction) (d : String) (hd : d ∈ tx.dependencies.getD [])
    (h1 : d ∉ s.ids) (h2 : d ∉ pre.map Transaction.id) (h3 : d ≠ tx.id) :
    (createRun s (pre ++ tx :: post)).1 = s ∧
      (createRun s (pre ++ tx :: post)).2.isSome :=
  createRun_of_isErr (createLoop_dep_absent_err hd h1 h2 h3)

/-- Claim C2 (witness): inserting "t1" depending on the absent id "missing"
into the empty store fails and persists nothing (spec §8 Scenario C). -/
theorem create_absent_dep_rejected_wit :
    (createRun ⟨[], []⟩ [⟨"t1", [], .pending, 1, some ["missing"], 0, 0⟩]).1 = ⟨[], []⟩ ∧
      (createRun ⟨[], []⟩ [⟨"t1", [], .pending, 1, some ["missing"], 0, 0⟩]).2.isSome :=
  create_absent_dep_rejected ⟨[], []⟩ [] []
    ⟨"t1", [], .pending, 1, some ["missing"], 0, 0⟩ "missing"
    (by decide) (by decide) (by decide) (by decide)

/-- After a record's row and edges are written, the id set has grown by
exactly that record's id. -/
theorem step_ids {s s2 s3 : TxStore} {tx : Transaction}
    (hr : insertRow s tx = .ok s2)
    (hes : insertEdges s2 tx.id (tx.dependencies.getD []) = .ok s3) :
    s3.ids = s.ids ++ [tx.id] := by
  obtain ⟨-, hs2⟩ := insertRow_ok hr
  obtain ⟨hrows, -⟩ := insertEdges_ok_state hes
  subst hs2
  simp [TxStore.ids, hrows, rowOf]

/-- If some batch record's id is already a stored primary key, the loop
fails (the id set only ever grows while the loop runs). -/
theorem createLoop_id_in_store_err : ∀ {txs : List Transaction} {s : TxStore},
    (∃ tx ∈ txs, tx.id ∈ s.ids) → isErr (createLoop s txs) = true
  | [], _, h => by simp at h
  | tx :: rest, s, h => by
    obtain ⟨t, ht, hid⟩ := h
    cases hr : insertRow s tx with
    | error e => simp [createLoop, hr, isErr]
    | ok s2 =>
      rcases List.mem_cons.mp ht with htx | htr
      · subst htx
        obtain ⟨hfresh, -⟩ := insertRow_ok hr
        exact absurd hid hfresh
      · cases hes : insertEdges s2 tx.id (tx.dependencies.getD []) with
        | error e => simp [createLoop, hr, hes, isErr]
        | ok s3 =>
          simp only [createLoop, hr, hes]
          refine createLoop_id_in_store_err ⟨t, htr, ?_⟩
          rw [step_ids hr hes]
          exact List.mem_append_left _ hid

/-- A batch that repeats an id fails: once the first copy's row is written,
the second copy violates the primary key. -/
theorem createLoop_dup_in_batch_err : ∀ {txs : List Transaction} {s : TxStore},
    ¬ (txs.map Transaction.id).Nodup → isErr (createLoop s txs) = true
  | [], _, h => absurd List.nodup_nil h
  | tx :: rest, s, h => by
    have hsplit : tx.id ∈ rest.map Transaction.id ∨ ¬ (rest.map Transaction.id).Nodup := by
      by_contra hc
      push_neg at hc
      exact h (List.nodup_cons.mpr ⟨hc.1, hc.2⟩)
    cases hr : insertRow s tx with
    | error e => simp [createLoop, hr, isErr]
    | ok s2 =>
      cases hes : insertEdges s2 tx.id (tx.dependencies.getD []) with
      | error e => simp [createLoop, hr, hes, isErr]
      | ok s3 =>
        simp only [createLoop, hr, hes]
        rcases hsplit with hmem | hnd
        · obtain ⟨t, htr, hteq⟩ := List.mem_map.mp hmem
          refine createLoop_id_in_store_err ⟨t, htr, ?_⟩
          rw [step_ids hr hes, hteq]
          exact List.mem_append_right _ (List.mem_singleton.mpr rfl)
        · exact createLoop_dup_in_batch_err hnd

/-- Claim C5: a batch containing a record whose id is already stored, or
two records sharing an id, is rejected as a whole: `create` errors and the
rollback persists nothing from the batch. -/
theorem create_duplicate_id_rejected (s : TxStore) (txs : List Transaction)
    (h : (∃ tx ∈ txs, tx.id ∈ s.ids) ∨ ¬ (txs.map Transaction.id).Nodup) :
    (createRun s txs).1 = s ∧ (createRun s txs).2.isSome :=
  createRun_of_isErr (h.elim createLoop_id_in_store_err createLoop_dup_in_batch_err)

/-- Claim C5 (witness): inserting id "a" into a store that already holds
"a" fails and leaves the store as it was. -/
theorem create_duplicate_id_rejected_wit :
    (createRun ⟨[⟨"a", [], .pending, 1, 0, 0⟩], []⟩
        [⟨"a", [], .validated, 2, none, 3, 3⟩]).1 = ⟨[⟨"a", [], .pending, 1, 0, 0⟩], []⟩ ∧
      (createRun ⟨[⟨"a", [], .pending, 1, 0, 0⟩], []⟩
        [⟨"a", [], .validated, 2, none, 3, 3⟩]).2.isSome :=
  create_duplicate_id_rejected ⟨[⟨"a", [], .pending, 1, 0, 0⟩], []⟩
    [⟨"a", [], .validated, 2, none, 3, 3⟩]
    (Or.inl ⟨⟨"a", [], .validated, 2, none, 3, 3⟩, by decide, by decide⟩)

/-- Every dependency of every batch record refers to an id already written:
either one of `ids` (the store before the batch) or the id of a strictly
earlier batch record. -/
def depsBackwardb (ids : List String) : List Transaction → Bool
  | [] => true
  | tx :: rest =>
    (tx.dependencies.getD []).all (fun d => decide (d ∈ ids)) &&
      depsBackwardb (ids ++ [tx.id]) rest

/-- The `tx_dependence` rows a batch writes, in write order. -/
def edgesOf : List Transaction → List (String × String)
  | [] => []
  | tx :: rest => (tx.dependencies.getD []).map (fun d => (tx.id, d)) ++ edgesOf rest

/-- The edge loop succeeds when the dependent id exists, every required id
exists, the list has no repeats and none of its pairs is already stored. -/
theorem insertEdges_ok_of : ∀ (l : List String) (s : TxStore) (dep : String),
    dep ∈ s.ids → (∀ d ∈ l, d ∈ s.ids) → l.Nodup →
    (∀ d ∈ l, (dep, d) ∉ s.deps) →
    insertEdges s dep l = .ok { s with deps := s.deps ++ l.map (fun d => (dep, d)) }
  | [], s, dep, _, _, _, _ => by simp [insertEdges]
  | req :: rest, s, dep, hdep, hl, hnd, hnew => by
    have hreq : req ∈ s.ids := hl req (List.mem_cons_self req rest)
    have hpair : (dep, req) ∉ s.deps := hnew req (List.mem_cons_self req rest)
    have he : insertEdge s dep req = .ok { s with deps := s.deps ++ [(dep, req)] } := by
      simp [insertEdge, hdep, hreq, hpair]
    obtain ⟨hn1, hn2⟩ := List.nodup_cons.mp hnd
    have hrest := insertEdges_ok_of rest { s with deps := s.deps ++ [(dep, req)] } dep
      hdep (fun d hd => hl d (List.mem_cons_of_mem req hd)) hn2
      (by
        intro d hd hmem
        rcases List.mem_append.mp hmem with hmem | hmem
        · exact hnew d (List.mem_cons_of_mem req hd) hmem
        · have : d = req := by
            have := List.mem_singleton.mp hmem
            exact (Prod.mk.injEq _ _ _ _ ▸ this).2
          exact hn1 (this ▸ hd))
    simp only [insertEdges, he, hrest]
    simp [List.append_assoc]

/-- Every dependency id a successful edge loop wrote was present in `tx`
when its edge was written (the FOREIGN KEY on required_id held). -/
theorem insertEdges_ok_required : ∀ {l : List String} {s : TxStore} {dep : String}
    {s1 : TxStore}, insertEdges s dep l = .ok s1 → ∀ d ∈ l, d ∈ s.ids
  | [], _, _, _, _, d, hd => absurd hd (List.not_mem_nil d)
  | req :: rest, s, dep, s1, h, d, hd => by
    cases he : insertEdge s dep req with
    | error e => simp [insertEdges, he] at h
    | ok s2 =>
      simp only [insertEdges, he] at h
      obtain ⟨-, hreq, -, hs2⟩ := insertEdge_ok he
      rcases List.mem_cons.mp hd with hdr | hdr
      · exact hdr ▸ hreq
      · have := insertEdges_ok_required h d hdr
        subst hs2
        exact this

/-- Claim C6 core (success): a batch of fresh, pairwise distinct ids whose
dependency lists have no repeats and refer only backward commits and appends
exactly its rows and edges. -/
theorem createLoop_backward_ok : ∀ (txs : List Transaction) (s : TxStore),
    (∀ tx ∈ txs, tx.id ∉ s.ids) →
    (txs.map Transaction.id).Nodup →
    (∀ tx ∈ txs, (tx.dependencies.getD []).Nodup) →
    (∀ e ∈ s.deps, e.1 ∈ s.ids) →
    depsBackwardb s.ids txs = true →
    createLoop s txs = .ok ⟨s.rows ++ txs.map rowOf, s.deps ++ edgesOf txs⟩
  | [], s, _, _, _, _, _ => by simp [createLoop, edgesOf]
  | tx :: rest, s, hfresh, hnd, hdnd, hwf, hback => by
    simp only [depsBackwardb, Bool.and_eq_true, List.all_eq_true, decide_eq_true_eq] at hback
    obtain ⟨hdeps_in, hback_rest⟩ := hback
    have hfresh_tx : tx.id ∉ s.ids := hfresh tx (List.mem_cons_self tx rest)
    have hr : insertRow s tx = .ok { s with rows := s.rows ++ [rowOf tx] } := by
      simp [insertRow, hfresh_tx]
    have hids1 : ({ s with rows := s.rows ++ [rowOf tx] } : TxStore).ids
        = s.ids ++ [tx.id] := by
      simp [TxStore.ids, rowOf]
    have hes := insertEdges_ok_of (tx.dependencies.getD [])
      { s with rows := s.rows ++ [rowOf tx] } tx.id
      (by rw [hids1]; exact List.mem_append_right _ (List.mem_singleton.mpr rfl))
      (fun d hd => by rw [hids1]; exact List.mem_append_left _ (hdeps_in d hd))
      (hdnd tx (List.mem_cons_self tx rest))
      (fun d _ hmem => hfresh_tx (hwf _ hmem))
    have hnd1 := List.nodup_cons.mp hnd
    have hids2 : (⟨s.rows ++ [rowOf tx],
        s.deps ++ (tx.dependencies.getD []).map (fun d => (tx.id, d))⟩
          : TxStore).ids = s.ids ++ [tx.id] := by
      simp [TxStore.ids, rowOf]
    have hrest := createLoop_backward_ok rest
      ⟨s.rows ++ [rowOf tx],
        s.deps ++ (tx.dependencies.getD []).map (fun d => (tx.id, d))⟩
      (by
        intro t ht
        rw [hids2]
        intro hmem
        rcases List.mem_append.mp hmem with hmem | hmem
        · exact hfresh t (List.mem_cons_of_mem tx ht) hmem
        · exact hnd1.1 (List.mem_singleton.mp hmem ▸ List.mem_map_of_mem Transaction.id ht)
      )
      hnd1.2
      (fun t ht => hdnd t (List.mem_cons_of_mem tx ht))
      (by
        intro e he
        rw [hids2]
        rcases List.mem_append.mp he with hmem | hmem
        · exact List.mem_append_left _ (hwf e hmem)
        · obtain ⟨d, -, hde⟩ := List.mem_map.mp hmem
          have : e.1 = tx.id := by rw [← hde]
          rw [this]
          exact List.mem_append_right _ (List.mem_singleton.mpr rfl)
      )
      (by rw [hids2]; exact hback_rest)
    simp only [createLoop, hr, hes, hrest, List.map_cons, edgesOf]
    simp [List.append_assoc]

/-- Claim C8 (amended): what the insert order does guarantee: after any
successful `create`, every `tx_dependence` row's required id is a stored
primary key (the FOREIGN KEY held at each write, and ids are never removed);
self-loops are allowed because a record's own row precedes its edges. -/
theorem create_edges_required_exists : ∀ {txs : List Transaction} {s s1 : TxStore},
    createLoop s txs = .ok s1 → (∀ e ∈ s.deps, e.2 ∈ s.ids) →
    ∀ e ∈ s1.deps, e.2 ∈ s1.ids
  | [], s, s1, h, hinv => by
    simp only [createLoop, Except.ok.injEq] at h
    subst h
    exact hinv
  | tx :: rest, s, s1, h, hinv => by
    cases hr : insertRow s tx with
    | error e => simp [createLoop, hr] at h
    | ok s2 =>
      cases hes : insertEdges s2 tx.id (tx.dependencies.getD []) with
      | error e => simp [createLoop, hr, hes] at h
      | ok s3 =>
        simp only [createLoop, hr, hes] at h
        apply create_edges_required_exists h
        obtain ⟨-, hs2⟩ := insertRow_ok hr
        obtain ⟨-, hdeps3⟩ := insertEdges_ok_state hes
        have hreq := insertEdges_ok_required hes
        have hids3 : s3.ids = s.ids ++ [tx.id] := step_ids hr hes
        have hids2 : s2.ids = s.ids ++ [tx.id] := by
          subst hs2
          simp [TxStore.ids, rowOf]
        intro e he
        rw [hdeps3] at he
        rw [hids3]
        rcases List.mem_append.mp he with hmem | hmem
        · have hmem0 : e ∈ s.deps := by
            subst hs2
            exact hmem
          exact List.mem_append_left _ (hinv e hmem0)
        · obtain ⟨d, hd, hde⟩ := List.mem_map.mp hmem
          have h2 : e.2 = d := by rw [← hde]
          rw [h2, ← hids2]
          exact hreq d hd

/-- Claim C8 (witness): after accepting the self-dependent record "y", the
persisted edge ("y", "y") has its required id among the stored ids. -/
theorem create_edges_required_exists_wit :
    (("y", "y") : String × String).2 ∈
      (⟨[⟨"y", [], .pending, 1, 0, 0⟩], [("y", "y")]⟩ : TxStore).ids :=
  @create_edges_required_exists [⟨"y", [], .pending, 1, some ["y"], 0, 0⟩] ⟨[], []⟩
    ⟨[⟨"y", [], .pending, 1, 0, 0⟩], [("y", "y")]⟩
    rfl (by decide) ("y", "y") (by decide)

/-- Claim C8 (counterexample): a record listing its own id among its
dependencies is accepted, and the self-loop edge ("x", "x") is persisted:
the record's row is written before its edges, so the FOREIGN KEY is
satisfied by the record itself. -/
theorem create_selfloop_persisted_cex :
    "x" ∈ (⟨"x", [], .pending, 1, some ["x"], 0, 0⟩ : Transaction).dependencies.getD [] ∧
    (createRun ⟨[], []⟩ [⟨"x", [], .pending, 1, some ["x"], 0, 0⟩]).2 = none ∧
    ("x", "x") ∈ (createRun ⟨[], []⟩ [⟨"x", [], .pending, 1, some ["x"], 0, 0⟩]).1.deps := by
  decide

/-- Claim C6 (amended): a batch of fresh distinct ids whose dependency lists
are duplicate-free and refer only to stored ids or strictly earlier batch
ids commits in full; a batch with a forward intra-batch reference (an id
appearing only later in the batch) is rejected with nothing persisted.  A
circular reference among two or more records always contains such a forward
reference, but a one-record cycle (self-dependency) is accepted. -/
theorem create_intra_batch_refs (s : TxStore) (txs : List Transaction) :
    ((∀ tx ∈ txs, tx.id ∉ s.ids) → (txs.map Transaction.id).Nodup →
      (∀ tx ∈ txs, (tx.dependencies.getD []).Nodup) →
      (∀ e ∈ s.deps, e.1 ∈ s.ids) →
      depsBackwardb s.ids txs = true →
      create s txs = .ok ⟨s.rows ++ txs.map rowOf, s.deps ++ edgesOf txs⟩) ∧
    (∀ pre tx post d, txs = pre ++ tx :: post → d ∈ tx.dependencies.getD [] →
      d ∉ s.ids → d ∉ pre.map Transaction.id → d ≠ tx.id →
      d ∈ post.map Transaction.id →
      (createRun s txs).1 = s ∧ (createRun s txs).2.isSome) := by
  refine ⟨fun h1 h2 h3 h4 h5 => createLoop_backward_ok txs s h1 h2 h3 h4 h5, ?_⟩
  intro pre tx post d hsplit hd hds hdpre hdtx _hdpost
  subst hsplit
  exact createRun_of_isErr (createLoop_dep_absent_err hd hds hdpre hdtx)

/-- Claim C6 (witness): "t1" then "t2" depending on "t1" commits both with
the edge (spec §8 Scenario B); "t3" depending on the later "t4" is rejected
with nothing persisted. -/
theorem create_intra_batch_refs_wit :
    create ⟨[], []⟩
        [⟨"t1", [], .pending, 1, none, 0, 0⟩, ⟨"t2", [], .pending, 2, some ["t1"], 0, 0⟩] =
      .ok ⟨[⟨"t1", [], .pending, 1, 0, 0⟩, ⟨"t2", [], .pending, 2, 0, 0⟩], [("t2", "t1")]⟩ ∧
    ((createRun ⟨[], []⟩
        [⟨"t3", [], .pending, 1, some ["t4"], 0, 0⟩, ⟨"t4", [], .pending, 1, none, 0, 0⟩]).1
          = ⟨[], []⟩ ∧
      (createRun ⟨[], []⟩
        [⟨"t3", [], .pending, 1, some ["t4"], 0, 0⟩,
          ⟨"t4", [], .pending, 1, none, 0, 0⟩]).2.isSome) := by
  constructor
  · exact (create_intra_batch_refs ⟨[], []⟩
      [⟨"t1", [], .pending, 1, none, 0, 0⟩, ⟨"t2", [], .pending, 2, some ["t1"], 0, 0⟩]).1
      (by decide) (by decide) (by decide) (by decide) (by decide)
  · exact (create_intra_batch_refs ⟨[], []⟩
      [⟨"t3", [], .pending, 1, some ["t4"], 0, 0⟩, ⟨"t4", [], .pending, 1, none, 0, 0⟩]).2
      [] ⟨"t3", [], .pending, 1, some ["t4"], 0, 0⟩ [⟨"t4", [], .pending, 1, none, 0, 0⟩]
      "t4" rfl (by decide) (by decide) (by decide) (by decide) (by decide)

/-- Claim C6 (counterexample): a one-record circular reference — "a"
depending on "a" — is accepted, not rejected: `create` returns no error and
the edge is persisted. -/
theorem create_self_cycle_accepted_cex :
    (createRun ⟨[], []⟩ [⟨"a", [], .pending, 1, some ["a"], 0, 0⟩]).2 = none ∧
    ("a", "a") ∈ (createRun ⟨[], []⟩ [⟨"a", [], .pending, 1, some ["a"], 0, 0⟩]).1.deps := by
  decide

/-- Claim C10: frame effect of `update`.  The dependency table is untouched,
the row list keeps its length and order, and row-by-row: id, priority and
created_at are always preserved; the row matching the argument's id gets the
argument's raw and status and has updated_at stamped with the call-time
clock value (`Utc::now()`), not with the argument's updated_at; every
non-matching row is completely unchanged. -/
theorem update_frame (s : TxStore) (tx : Transaction) (now : Int) (s1 : TxStore)
    (h : update s tx now = .ok s1) :
    s1.deps = s.deps ∧
    List.Forall₂ (fun r r1 =>
      r1.id = r.id ∧ r1.priority = r.priority ∧ r1.created_at = r.created_at ∧
      (r.id = tx.id → r1.raw = tx.raw ∧ r1.status = tx.status ∧ r1.updated_at = now) ∧
      (r.id ≠ tx.id → r1 = r)) s.rows s1.rows := by
  simp only [update, Except.ok.injEq] at h
  subst h
  refine ⟨rfl, ?_⟩
  show List.Forall₂ _ s.rows (s.rows.map (updateRow tx now))
  rw [List.forall₂_map_right_iff, List.forall₂_same]
  intro r _
  by_cases hid : r.id = tx.id
  · simp [updateRow, hid]
  · simp [updateRow, hid]

/-- Claim C10 (witness): updating id "a" at clock value 5 with an argument
carrying updated_at 99 rewrites only that row's raw, status and updated_at
(to 5, not 99), and leaves the other row and the edge table unchanged. -/
theorem update_frame_wit :
    (⟨[⟨"a", [9], .validated, 1, 0, 5⟩, ⟨"b", [], .pending, 2, 0, 0⟩],
        [("a", "b")]⟩ : TxStore).deps =
      (⟨[⟨"a", [], .pending, 1, 0, 0⟩, ⟨"b", [], .pending, 2, 0, 0⟩],
        [("a", "b")]⟩ : TxStore).deps ∧
    List.Forall₂ (fun r r1 =>
      r1.id = r.id ∧ r1.priority = r.priority ∧ r1.created_at = r.created_at ∧
      (r.id = (⟨"a", [9], .validated, 7, none, 0, 99⟩ : Transaction).id →
        r1.raw = (⟨"a", [9], .validated, 7, none, 0, 99⟩ : Transaction).raw ∧
        r1.status = (⟨"a", [9], .validated, 7, none, 0, 99⟩ : Transaction).status ∧
        r1.updated_at = 5) ∧
      (r.id ≠ (⟨"a", [9], .validated, 7, none, 0, 99⟩ : Transaction).id → r1 = r))
      (⟨[⟨"a", [], .pending, 1, 0, 0⟩, ⟨"b", [], .pending, 2, 0, 0⟩],
        [("a", "b")]⟩ : TxStore).rows
      (⟨[⟨"a", [9], .validated, 1, 0, 5⟩, ⟨"b", [], .pending, 2, 0, 0⟩],
        [("a", "b")]⟩ : TxStore).rows :=
  update_frame
    ⟨[⟨"a", [], .pending, 1, 0, 0⟩, ⟨"b", [], .pending, 2, 0, 0⟩], [("a", "b")]⟩
    ⟨"a", [9], .validated, 7, none, 0, 99⟩ 5
    ⟨[⟨"a", [9], .validated, 1, 0, 5⟩, ⟨"b", [], .pending, 2, 0, 0⟩], [("a", "b")]⟩
    rfl
